import Mathlib

/-
Verification of the stock-dashboard data-acquisition and feature-derivation
core against its specification.

The definitions below are a shallow embedding of the Python sources:
  backend/api/services/prices.py    (provider cascade, TTL price cache)
  backend/api/services/features.py  (indicator engine, news aggregation,
                                     TTL features cache)
  backend/api/services/valuation.py (model loading, feature-order
                                     resolution, predict_direction)
Python floats are modelled as exact rationals; math.sqrt forces the real
numbers at the single place it occurs (the standard-deviation helper).
Wall-clock time (time.time()) is passed explicitly as a rational `now`;
the external HTTP providers are modelled by the value each adapter call
would produce, an `Except` of an error message or a normalized series.
-/

set_option autoImplicit false

namespace StockDashboard

/-- One OHLCV bar of a normalized price series (prices.py response shape).
The field `open` of the Python dict is renamed `openPrice` because `open`
is a Lean keyword. -/
structure Bar where
  timestamp : ℤ
  openPrice : ℚ
  high : ℚ
  low : ℚ
  close : ℚ
  volume : ℚ
deriving DecidableEq, Repr

/-- The normalized payload returned by `get_prices` and by each provider
adapter (prices.py `get_prices` docstring). -/
structure Series where
  symbol : String
  interval : String
  provider : String
  prices : List Bar
deriving DecidableEq, Repr

namespace Prices

/-- Cache entry of the in-memory price cache (prices.py `_CacheItem`). -/
structure CacheItem where
  data : Series
  ts : ℚ
deriving DecidableEq, Repr

/-- Cache key `(symbol.upper(), interval, limit)` used by `get_prices`. -/
abbrev Key := String × String × ℕ

/-- The in-memory price cache `_cache : dict[tuple, _CacheItem]`, modelled
as an association list looked up on the first matching key. -/
abbrev Cache := List (Key × CacheItem)

/-- prices.py `_cache_get`: a stored entry is returned while
`now - item.ts <= CACHE_TTL`; a strictly older entry is popped and treated
as absent.  Returns the possibly-updated cache alongside the value. -/
def _cache_get (ttl now : ℚ) (cache : Cache) (key : Key) : Option Series × Cache :=
  match cache.lookup key with
  | none => (none, cache)
  | some item =>
    if ttl < now - item.ts then (none, cache.eraseP (fun e => e.1 == key))
    else (some item.data, cache)

/-- prices.py `_cache_set`: dict assignment, i.e. replace any entry under
the same key. -/
def _cache_set (now : ℚ) (key : Key) (data : Series) (cache : Cache) : Cache :=
  (key, { data := data, ts := now }) :: cache.eraseP (fun e => e.1 == key)

/-- The error raised when the whole cascade fails
(`PriceServiceError("All providers failed ... Last error: ...")`),
carrying the last exception recorded by the loop, if any. -/
inductive CascadeError where
  | allProvidersFailed (lastErr : Option String)
deriving DecidableEq, Repr

/-- Outcome of invoking one provider adapter on this call: either the
normalized series it returns or the message of the exception it raises. -/
abbrev AdapterResult := Except String Series

/-- The provider loop of `get_prices` (prices.py lines 113-132): walk the
adapters in priority order; an adapter that raises records its error and
the loop continues; an adapter that returns a payload with a non-empty
`prices` list wins immediately; a payload with no bars is skipped without
recording an error.  The second component counts how many adapters were
invoked before the loop stopped. -/
def cascade : Option String → List AdapterResult → (Except CascadeError Series × ℕ)
  | lastErr, [] => (Except.error (CascadeError.allProvidersFailed lastErr), 0)
  | lastErr, Except.ok d :: rest =>
    if d.prices.isEmpty then
      let r := cascade lastErr rest
      (r.1, r.2 + 1)
    else (Except.ok d, 1)
  | _, Except.error e :: rest =>
    let r := cascade (some e) rest
    (r.1, r.2 + 1)

/-- `True` of an adapter outcome the cascade does not accept: it raised,
or it returned a series with zero bars. -/
def adapterFails (r : AdapterResult) : Bool :=
  match r with
  | Except.error _ => true
  | Except.ok d => d.prices.isEmpty

/-- The error message recorded by the cascade loop after all adapters ran:
the message of the last adapter that raised (empty successes do not touch
`last_err`). -/
def lastRaised : Option String → List AdapterResult → Option String
  | acc, [] => acc
  | _, Except.error e :: rest => lastRaised (some e) rest
  | acc, Except.ok _ :: rest => lastRaised acc rest

/-- prices.py `get_prices`: uppercase the symbol into the cache key, serve
a fresh cache hit, otherwise run the adapter cascade and cache a win.
Returns the result, the updated cache, and the number of adapters invoked. -/
def get_prices (ttl now : ℚ) (cache : Cache) (symbol interval : String) (limit : ℕ)
    (adapters : List AdapterResult) : Except CascadeError Series × Cache × ℕ :=
  let key : Key := (symbol.toUpper, interval, limit)
  match _cache_get ttl now cache key with
  | (some d, cache1) => (Except.ok d, cache1, 0)
  | (none, cache1) =>
    match cascade none adapters with
    | (Except.ok d, n) => (Except.ok d, _cache_set now key d cache1, n)
    | (Except.error e, n) => (Except.error e, cache1, n)

end Prices

namespace Features

/-- features.py `_sma`: mean of the last `n` values, `none` when fewer
than `n` values exist. -/
def _sma (values : List ℚ) (n : ℕ) : Option ℚ :=
  if values.length < n then none
  else some (((values.drop (values.length - n)).sum) / n)

/-- features.py `_ema`: seed with the plain mean of the first `n` values,
then fold the recurrence `ema = v*k + ema*(1-k)`, `k = 2/(n+1)`, over the
remaining values in order. -/
def _ema (values : List ℚ) (n : ℕ) : Option ℚ :=
  if values.length < n then none
  else
    let k : ℚ := 2 / ((n : ℚ) + 1)
    some ((values.drop n).foldl (fun ema v => v * k + ema * (1 - k))
      ((values.take n).sum / n))

/-- The per-step gains of features.py `_rsi`: `max(values[i]-values[i-1], 0)`
for each consecutive pair. -/
def gainsOf (values : List ℚ) : List ℚ :=
  (values.zip values.tail).map (fun p => max (p.2 - p.1) 0)

/-- The per-step losses of features.py `_rsi`: `max(values[i-1]-values[i], 0)`
for each consecutive pair. -/
def lossesOf (values : List ℚ) : List ℚ :=
  (values.zip values.tail).map (fun p => max (p.1 - p.2) 0)

/-- The Wilder update loop of `_rsi`: starting from the seed average, fold
`avg = (avg*(period-1) + x) / period` over the remaining steps. -/
def wilderSmooth (period : ℕ) (seed : ℚ) (rest : List ℚ) : ℚ :=
  rest.foldl (fun avg x => (avg * ((period : ℚ) - 1) + x) / period) seed

/-- The smoothed average gain computed by `_rsi`: seed with the mean of
the first `period` gains, Wilder-update with the rest. -/
def rsiAvgGain (values : List ℚ) (period : ℕ) : ℚ :=
  wilderSmooth period (((gainsOf values).take period).sum / period)
    ((gainsOf values).drop period)

/-- The smoothed average loss computed by `_rsi`. -/
def rsiAvgLoss (values : List ℚ) (period : ℕ) : ℚ :=
  wilderSmooth period (((lossesOf values).take period).sum / period)
    ((lossesOf values).drop period)

/-- features.py `_rsi`: `none` when the series has at most `period`
points; `100` when the smoothed average loss is exactly zero; otherwise
`100 - 100/(1 + avg_gain/avg_loss)`. -/
def _rsi (values : List ℚ) (period : ℕ) : Option ℚ :=
  if values.length ≤ period then none
  else if rsiAvgLoss values period = 0 then some 100
  else some (100 - 100 / (1 + rsiAvgGain values period / rsiAvgLoss values period))

/-- The loop body building the running MACD series of `_macd`: the
difference of the fast and slow EMAs of the prefix `values[:p]` when both
exist. -/
def emaDiff (values : List ℚ) (fast slow : ℕ) (p : ℕ) : Option ℚ :=
  match _ema (values.take p) fast, _ema (values.take p) slow with
  | some a, some b => some (a - b)
  | _, _ => none

/-- The running MACD series built by features.py `_macd`: for every prefix
`values[:i+1]` whose fast and slow EMAs both exist, their difference. -/
def macdPrefixSeries (values : List ℚ) (fast slow : ℕ) : List ℚ :=
  (List.range values.length).filterMap (fun i => emaDiff values fast slow (i + 1))

/-- features.py `_macd`: all three components are `none` when
`len(values) < slow + signal`; otherwise macd is the difference of the
full-series EMAs, the signal line is the EMA of the running MACD series,
and the histogram their difference; signal and histogram fall back to
`none` when the running series is shorter than `signal`. -/
def _macd (values : List ℚ) (fast slow signal : ℕ) :
    Option ℚ × Option ℚ × Option ℚ :=
  if values.length < slow + signal then (none, none, none)
  else
    match _ema values fast, _ema values slow with
    | some ef, some es =>
      let macdVal := ef - es
      let ms := macdPrefixSeries values fast slow
      if ms.length < signal then (some macdVal, none, none)
      else
        match _ema ms signal with
        | some s => (some macdVal, some s, some (macdVal - s))
        | none => (some macdVal, none, none)
    | _, _ => (none, none, none)

/-- The population variance used by features.py `_stddev` before the
square root: mean-squared deviation of the last `n` values from `m`. -/
def squaredDeviationMean (values : List ℚ) (n : ℕ) (m : ℚ) : ℚ :=
  (((values.drop (values.length - n)).map (fun v => (v - m) ^ 2)).sum) / n

/-- features.py `_stddev`: square root of the population variance of the
last `n` values around their SMA; `none` when fewer than `n` values exist.
`math.sqrt` is modelled by `Real.sqrt`, so the result lives in ℝ. -/
noncomputable def _stddev (values : List ℚ) (n : ℕ) : Option ℝ :=
  if values.length < n then none
  else
    match _sma values n with
    | none => none
    | some m => some (Real.sqrt ((squaredDeviationMean values n m : ℚ) : ℝ))

/-- The Bollinger %B block of features.py `get_features` (lines 170-176):
bands `sma_20 ± 2*sd_20`, and `%B = (last - lower)/(upper - lower)` when
both bands exist and differ, `none` otherwise.  `last` is the final close
of the series (`closes[-1]`; the caller guarantees a non-empty list, the
`getD` default is never consulted in context). -/
noncomputable def bollingerPercentB (closes : List ℚ) : Option ℝ :=
  let last : ℚ := closes.getLast?.getD 0
  match _sma closes 20, _stddev closes 20 with
  | some m, some sd =>
    let upper : ℝ := (m : ℝ) + 2 * sd
    let lower : ℝ := (m : ℝ) - 2 * sd
    if upper = lower then none
    else some (((last : ℚ) - lower) / (upper - lower))
  | _, _ => none

/-- Cache key `(symbol, interval, limit, max_news)` of the features cache. -/
abbrev FKey := String × String × ℕ × ℕ

/-- features.py `_cache_get`: a stored `(ts, val)` pair is served while
`now - ts <= FEATURES_CACHE_TTL`; older entries are treated as absent
(this cache never evicts). -/
def _cache_get {α : Type} (ttl now : ℚ) (cache : List (FKey × (ℚ × α))) (key : FKey) :
    Option α :=
  match cache.lookup key with
  | none => none
  | some (ts, val) => if now - ts ≤ ttl then some val else none

/-- One news item as read by the news block of `get_features`: the
`published_at` epoch (absent is read as 0 by the code) and the numeric
`sentiment.score` when one is attached. -/
structure NewsItem where
  published_at : Option ℚ
  score : Option ℚ
deriving DecidableEq, Repr

/-- The local `mean` helper of `get_features`: `none` on an empty list,
else the arithmetic mean (its numeric-type filter is the identity here
because scores are already numeric). -/
def meanOf (arr : List ℚ) : Option ℚ :=
  if arr.isEmpty then none else some (arr.sum / arr.length)

/-- The news-window aggregation of features.py `get_features`
(lines 184-222) for one window: `scores` keeps only the numeric sentiment
scores, `times` reads `published_at or 0` for every item, the window mask
collects the indices of `times` at or after the cutoff, and the mean is
taken of `scores` at those indices.  Indexing the filtered `scores` list
with an index of the unfiltered `times` list raises in Python when it is
out of range; that raise is the `Except.error` case. -/
def newsWindowAggregate (items : List NewsItem) (now windowSeconds : ℚ) :
    Except String (Option ℚ × ℕ) :=
  let scores := items.filterMap (fun n => n.score)
  let times := items.map (fun n => n.published_at.getD 0)
  let cutoff := now - windowSeconds
  let idx := (times.enum.filter (fun p => cutoff ≤ p.2)).map (fun p => p.1)
  if idx.isEmpty then Except.ok (none, 0)
  else if idx.all (fun i => i < scores.length) then
    Except.ok (meanOf (idx.map (fun i => scores.getD i 0)), idx.length)
  else Except.error "IndexError"

/-- The aggregate the specification asks for, stated from its words: the
mean sentiment score and the count over exactly the items published at or
after `now - window` (mean absent when no item qualifies). -/
def specNewsWindow (items : List NewsItem) (now windowSeconds : ℚ) :
    Option ℚ × ℕ :=
  let qualifying := items.filter (fun n => now - windowSeconds ≤ n.published_at.getD 0)
  (meanOf (qualifying.filterMap (fun n => n.score)), qualifying.length)

end Features

namespace Valuation

/-- The loaded classifier as `predict_direction` consumes it: a
`predict_proba` that either yields a class-probability list or raises
(`none`), and a `predict` yielding a class label.  `loadedAt` is the
timestamp recorded by `_load_model`. -/
structure Model where
  predictProba : List ℚ → Option (List ℚ)
  predict : List ℚ → ℤ
  loadedAt : ℚ

/-- The failures `predict_direction` can raise before reaching a model:
`modelNotFound` is the `FileNotFoundError` of `_load_model` when the model
artifact is absent; `noInput` is the `ValueError` when neither features
nor a symbol are given. -/
inductive PredictError where
  | modelNotFound
  | noInput
deriving DecidableEq, Repr

/-- The payload returned by valuation.py `predict_direction`. -/
structure PredictResult where
  prob_up : ℚ
  prob_down : ℚ
  label : String
  features : List (String × ℚ)
  feature_order : List String
  model_loaded_at : ℚ
deriving DecidableEq, Repr

/-- Python `round(x, 4)` (the half-to-even tie rule of Python floats is
idealized to the standard rounding of ℚ; no claim exercises a tie). -/
def round4 (q : ℚ) : ℚ := ((round (q * 10000) : ℤ) : ℚ) / 10000

/-- The row construction of `predict_direction` (line 387): the features
in the resolved order, an absent name contributing `0.0`. -/
def buildRow (order : List String) (features : List (String × ℚ)) : List ℚ :=
  order.map (fun k => (features.lookup k).getD 0)

/-- valuation.py `_get_feature_order`: serve a cached order, otherwise
resolve sidecar, then CSV header, then environment; truncate or pad with
`_pad_i` names to the width the model declares; fall back to the legacy
four-column order when everything is empty. -/
def _get_feature_order (cachedOrder sidecar csvCols envCols : List String)
    (nExpected : ℕ) : List String :=
  if cachedOrder ≠ [] then cachedOrder
  else
    let base := if sidecar ≠ [] then sidecar
      else if csvCols ≠ [] then csvCols else envCols
    let sized := if 0 < nExpected then
        (if nExpected < base.length then base.take nExpected
         else base ++ (List.range (nExpected - base.length)).map
           (fun i => "_pad_" ++ toString i))
      else base
    if sized = [] then ["pe_ratio", "eps", "revenue_growth", "close_price"]
    else sized

/-- valuation.py `predict_direction` on an explicit feature dict.
`loadedModel` is the artifact `_load_model` finds: `none` models an absent
model file, in which case the `FileNotFoundError` raised by `_load_model`
propagates and no prediction is produced (the route layer maps it to an
HTTP 503).  `order` is the feature order `_get_feature_order` resolved.  The probability pair comes from `predict_proba` when it
succeeds with at least one entry (a one-entry list yields
`prob_up = 1 - prob_down`), and otherwise from the `predict` fallback with
its fixed 0.7/0.3 confidence.  Both probabilities are reported rounded to
4 decimal places; no calibration of any kind is applied to them. -/
def predict_direction (loadedModel : Option Model) (order : List String)
    (features : List (String × ℚ)) : Except PredictError PredictResult :=
  match loadedModel with
  | none => Except.error PredictError.modelNotFound
  | some m =>
    let row := buildRow order features
    let pair : ℚ × ℚ :=
      match m.predictProba row with
      | some (p0 :: rest) =>
        match rest with
        | p1 :: _ => (p1, p0)
        | [] => (1 - p0, p0)
      | _ =>
        let pu : ℚ := if m.predict row = 1 then 7 / 10 else 3 / 10
        (pu, 1 - pu)
    let label := if (1 : ℚ) / 2 ≤ pair.1 then "UP" else "DOWN"
    Except.ok
      { prob_up := round4 pair.1
        prob_down := round4 pair.2
        label := label
        features := order.map (fun k => (k, (features.lookup k).getD 0))
        feature_order := order
        model_loaded_at := m.loadedAt }

end Valuation

/-- A sample bar for concrete instantiations. -/
def sampleBar : Bar :=
  { timestamp := 0, openPrice := 1, high := 1, low := 1, close := 1, volume := 1 }

/-- A sample non-empty normalized series. -/
def sampleSeries : Series :=
  { symbol := "AAPL", interval := "1day", provider := "alpha_vantage"
    prices := [sampleBar] }

/-- A sample successful adapter payload that carries zero bars. -/
def emptySeries : Series :=
  { symbol := "AAPL", interval := "1day", provider := "twelve_data", prices := [] }

/-- A 20-point sample series whose last value equals its SMA(20) = 10 and
whose population variance over the window is exactly 1. -/
def bollingerSample : List ℚ :=
  [13, 7, 11, 9, 10, 10, 10, 10, 10, 10, 10, 10, 10, 10, 10, 10, 10, 10, 10, 10]

/-- Three scored news items at epochs 500, 900, 950 (the scenario of the
specification, scores 0.2, -0.4, 0.6). -/
def newsSample : List Features.NewsItem :=
  [{ published_at := some 500, score := some (1 / 5) },
    { published_at := some 900, score := some (-2 / 5) },
    { published_at := some 950, score := some (3 / 5) }]

/-- A concrete loaded classifier whose `predict_proba` reports the extreme
class probabilities 0 and 1. -/
def extremeModel : Valuation.Model :=
  { predictProba := fun _ => some [0, 1]
    predict := fun _ => 1
    loadedAt := 0 }

/-! Theorems settling the claims. -/

/-- C1 (counterexample): with no model artifact loaded, `predict_direction`
does not return the neutral 0.5/0.5 HOLD result; it fails with the
model-not-found error that `_load_model` raises (`FileNotFoundError`),
here at the concrete legacy feature order and an empty feature dict. -/
theorem claim_C1_counterexample :
    Valuation.predict_direction none ["pe_ratio", "eps", "revenue_growth", "close_price"] [] =
      Except.error Valuation.PredictError.modelNotFound := rfl

/-- C1 (amended): for every feature order and feature dict — hence for
every input symbol — `predict_direction` with no loaded model fails with
the model-not-found error rather than returning any result at all. -/
theorem claim_C1 (order : List String) (features : List (String × ℚ)) :
    Valuation.predict_direction none order features =
      Except.error Valuation.PredictError.modelNotFound := rfl

/-- C2 (counterexample): a prediction call returns `prob_up` exactly 1:
no clamping of probabilities away from exactly 0 and 1 happens, and no
sigmoid/logit temperature calibration is applied anywhere —
`predict_direction` has no temperature input and reports the raw
`predict_proba` output rounded to 4 decimal places. -/
theorem claim_C2_counterexample :
    Valuation.predict_direction (some extremeModel) ["close_price"] [] =
      Except.ok
        { prob_up := 1
          prob_down := 0
          label := "UP"
          features := [("close_price", 0)]
          feature_order := ["close_price"]
          model_loaded_at := 0 } := by
  norm_num [Valuation.predict_direction, extremeModel, Valuation.buildRow,
    Valuation.round4]

/-- C2 (amended): `predict_direction` applies no temperature calibration
and no clamping: whenever `predict_proba` succeeds with at least two
entries, the reported probabilities are exactly its raw first two entries
rounded to 4 decimal places, untransformed (so they are trivially left
unchanged, and may be exactly 0 or 1). -/
theorem claim_C2 (m : Valuation.Model) (order : List String)
    (features : List (String × ℚ)) (p0 p1 : ℚ) (rest : List ℚ)
    (h : m.predictProba (Valuation.buildRow order features) = some (p0 :: p1 :: rest)) :
    Valuation.predict_direction (some m) order features =
      Except.ok
        { prob_up := Valuation.round4 p1
          prob_down := Valuation.round4 p0
          label := if (1 : ℚ) / 2 ≤ p1 then "UP" else "DOWN"
          features := order.map (fun k => (k, (features.lookup k).getD 0))
          feature_order := order
          model_loaded_at := m.loadedAt } := by
  simp only [Valuation.predict_direction, h]

/-- C2 (witness): the amended theorem applied to the concrete extreme
model, whose `predict_proba` yields `[0, 1]` on the empty feature dict. -/
theorem claim_C2_witness :
    Valuation.predict_direction (some extremeModel) ["f"] [] =
      Except.ok
        { prob_up := Valuation.round4 1
          prob_down := Valuation.round4 0
          label := if (1 : ℚ) / 2 ≤ (1 : ℚ) then "UP" else "DOWN"
          features := [("f", 0)]
          feature_order := ["f"]
          model_loaded_at := 0 } :=
  claim_C2 extremeModel ["f"] [] 0 1 [] rfl

/-- For a key absent from the dict, looking up any name in the dict
extended with that key bound to 0 gives the same 0-defaulted value as the
original dict. -/
theorem lookup_insert_zero_getD (features : List (String × ℚ)) (k name : String)
    (h : features.lookup k = none) :
    ((((k, (0 : ℚ)) :: features).lookup name).getD 0) = ((features.lookup name).getD 0) := by
  by_cases hk : name = k
  · subst hk
    simp [List.lookup, h]
  · have : (name == k) = false := beq_false_of_ne hk
    simp [List.lookup, this]

/-- C10: the model input row is the features read off in the resolved
order with 0.0 silently substituted for absent names; an absent feature
never makes `predict_direction` fail, and the whole prediction result is
unchanged when an absent feature is instead bound to exactly 0.0 — the
two inputs are indistinguishable. -/
theorem claim_C10 (m : Valuation.Model) (order : List String)
    (features : List (String × ℚ)) (k : String)
    (h : features.lookup k = none) :
    Valuation.buildRow order features =
        order.map (fun name => (features.lookup name).getD 0)
      ∧ (∃ r, Valuation.predict_direction (some m) order features = Except.ok r)
      ∧ Valuation.predict_direction (some m) order features =
          Valuation.predict_direction (some m) order ((k, 0) :: features) := by
  have hrow : Valuation.buildRow order ((k, 0) :: features) =
      Valuation.buildRow order features := by
    unfold Valuation.buildRow
    exact List.map_congr_left (fun name _ => lookup_insert_zero_getD features k name h)
  have hfeat : (order.map (fun name => (name, (((k, (0 : ℚ)) :: features).lookup name).getD 0))) =
      (order.map (fun name => (name, ((features.lookup name).getD 0)))) :=
    List.map_congr_left (fun name _ => by rw [lookup_insert_zero_getD features k name h])
  refine ⟨rfl, ⟨_, rfl⟩, ?_⟩
  simp only [Valuation.predict_direction, hrow, hfeat]

/-- C10 (witness): the concrete dict binding only `a` has no entry for
`b`; predicting on it and on the dict with `b` bound to 0 coincide. -/
theorem claim_C10_witness :
    Valuation.predict_direction (some extremeModel) ["a", "b"] [("a", 5)] =
      Valuation.predict_direction (some extremeModel) ["a", "b"] [("b", 0), ("a", 5)] :=
  (claim_C10 extremeModel ["a", "b"] [("a", 5)] "b" (by decide)).2.2

/-- The cascade loop accepts the first adapter that returns a non-empty
series: every earlier failing adapter adds one invocation, later entries
are never reached. -/
theorem cascade_first_success (pre : List Prices.AdapterResult) (lastErr : Option String)
    (d : Series) (post : List Prices.AdapterResult)
    (hpre : ∀ r ∈ pre, Prices.adapterFails r = true) (hd : d.prices ≠ []) :
    Prices.cascade lastErr (pre ++ Except.ok d :: post) = (Except.ok d, pre.length + 1) := by
  induction pre generalizing lastErr with
  | nil =>
    cases hp : d.prices with
    | nil => exact absurd hp hd
    | cons b l => simp [Prices.cascade, hp]
  | cons r pre ih =>
    have hr : Prices.adapterFails r = true := hpre r (List.mem_cons_self r pre)
    have hrest : ∀ x ∈ pre, Prices.adapterFails x = true :=
      fun x hx => hpre x (List.mem_cons_of_mem r hx)
    cases r with
    | error e =>
      have hih := ih (some e) hrest
      simp [List.cons_append, Prices.cascade, hih, List.length_cons]
    | ok d' =>
      have he : d'.prices.isEmpty = true := hr
      have hih := ih lastErr hrest
      simp [List.cons_append, Prices.cascade, he, hih, List.length_cons]

/-- When every adapter fails, the cascade walks the whole list, invoking
each adapter once, and reports the all-providers failure carrying the
error message of the last adapter that raised. -/
theorem cascade_all_fail (results : List Prices.AdapterResult) (lastErr : Option String)
    (h : ∀ r ∈ results, Prices.adapterFails r = true) :
    Prices.cascade lastErr results =
      (Except.error (Prices.CascadeError.allProvidersFailed (Prices.lastRaised lastErr results)),
        results.length) := by
  induction results generalizing lastErr with
  | nil => rfl
  | cons r rest ih =>
    have hr : Prices.adapterFails r = true := h r (List.mem_cons_self r rest)
    have hrest : ∀ x ∈ rest, Prices.adapterFails x = true :=
      fun x hx => h x (List.mem_cons_of_mem r hx)
    cases r with
    | error e =>
      have hih := ih (some e) hrest
      simp [Prices.cascade, Prices.lastRaised, hih, List.length_cons]
    | ok d' =>
      have he : d'.prices.isEmpty = true := hr
      have hih := ih lastErr hrest
      simp [Prices.cascade, Prices.lastRaised, he, hih, List.length_cons]

/-- C3: on a call that reaches the provider cascade (the cache lookup
misses), with every earlier-priority adapter failing and an adapter
returning a series with at least one bar, `get_prices` returns exactly
that series, stores it in the cache, and the number of adapters invoked
is the position of the accepted adapter plus one — the later-priority
adapters in `post` are never invoked. -/
theorem claim_C3 (ttl now : ℚ) (cache cache1 : Prices.Cache) (sym itv : String)
    (lim : ℕ) (pre post : List Prices.AdapterResult) (d : Series)
    (hpre : ∀ r ∈ pre, Prices.adapterFails r = true)
    (hd : d.prices ≠ [])
    (hmiss : Prices._cache_get ttl now cache (sym.toUpper, itv, lim) = (none, cache1)) :
    Prices.get_prices ttl now cache sym itv lim (pre ++ Except.ok d :: post) =
      (Except.ok d, Prices._cache_set now (sym.toUpper, itv, lim) d cache1,
        pre.length + 1) := by
  simp only [Prices.get_prices, hmiss, cascade_first_success pre none d post hpre hd]

/-- C3 (witness): a raising adapter, then an adapter returning zero bars,
then a non-empty success, then one more adapter: the call returns the
third payload, caches it, and invokes exactly three adapters. -/
theorem claim_C3_witness :
    Prices.get_prices 60 0 [] "aapl" "1day" 100
        [Except.error "boom", Except.ok emptySeries, Except.ok sampleSeries,
          Except.ok sampleSeries] =
      (Except.ok sampleSeries,
        Prices._cache_set 0 ("aapl".toUpper, "1day", 100) sampleSeries [], 3) :=
  claim_C3 60 0 [] [] "aapl" "1day" 100
    [Except.error "boom", Except.ok emptySeries] [Except.ok sampleSeries] sampleSeries
    (by decide) (by decide) rfl

/-- C5: on a call that reaches the provider cascade, when every
configured adapter fails (raises or returns an empty series), `get_prices`
fails with the all-providers-failed error carrying the error message of
the last adapter that raised; no per-adapter error propagates directly —
the only failure the caller can see is `CascadeError.allProvidersFailed`. -/
theorem claim_C5 (ttl now : ℚ) (cache cache1 : Prices.Cache) (sym itv : String)
    (lim : ℕ) (adapters : List Prices.AdapterResult)
    (hall : ∀ r ∈ adapters, Prices.adapterFails r = true)
    (hmiss : Prices._cache_get ttl now cache (sym.toUpper, itv, lim) = (none, cache1)) :
    Prices.get_prices ttl now cache sym itv lim adapters =
      (Except.error
          (Prices.CascadeError.allProvidersFailed (Prices.lastRaised none adapters)),
        cache1, adapters.length) := by
  simp only [Prices.get_prices, hmiss, cascade_all_fail adapters none hall]

/-- C5 (witness): two raising adapters and one empty success: the call
fails with the all-providers error carrying the second raise (the last
error recorded), after invoking all three adapters. -/
theorem claim_C5_witness :
    Prices.get_prices 60 0 [] "aapl" "1day" 100
        [Except.error "boom1", Except.error "boom2", Except.ok emptySeries] =
      (Except.error (Prices.CascadeError.allProvidersFailed (some "boom2")), [], 3) :=
  claim_C5 60 0 [] [] "aapl" "1day" 100
    [Except.error "boom1", Except.error "boom2", Except.ok emptySeries]
    (by decide) rfl

/-- C4 (counterexample): at exactly `T - T = TTL` both caches still serve
the stored value — the code treats an entry as fresh while
`now - ts <= TTL` — whereas the claim says a read at `T - T >= TTL`
treats the entry as absent and triggers a fresh fetch. -/
theorem claim_C4_counterexample :
    Prices._cache_get 60 60 [(("AAPL", "1day", 100), { data := sampleSeries, ts := 0 })]
        ("AAPL", "1day", 100) =
      (some sampleSeries, [(("AAPL", "1day", 100), { data := sampleSeries, ts := 0 })])
    ∧ Features._cache_get 600 600 [(("AAPL", "1day", 240, 50), ((0 : ℚ), (42 : ℚ)))]
        ("AAPL", "1day", 240, 50) = some 42 := by
  constructor
  · simp [Prices._cache_get, List.lookup]
  · simp [Features._cache_get, List.lookup]

/-- C4 (amended): an entry stored at `ts` is valid exactly while
`now - ts <= TTL`: within that bound both caches return the stored value
unchanged and `get_prices` serves the hit without invoking any adapter;
strictly beyond it both caches treat the entry as absent (the price cache
also evicts it) and `get_prices` triggers a fresh fetch by running the
adapter cascade and caching its winner. -/
theorem claim_C4 (ttl ts now : ℚ) (sym itv : String) (lim : ℕ) (s : Series)
    (fkey : Features.FKey) (v : ℚ) (adapters : List Prices.AdapterResult) :
    ((now - ts ≤ ttl →
        Prices._cache_get ttl now [((sym.toUpper, itv, lim), { data := s, ts := ts })]
            (sym.toUpper, itv, lim) =
          (some s, [((sym.toUpper, itv, lim), { data := s, ts := ts })]))
      ∧ (ttl < now - ts →
        Prices._cache_get ttl now [((sym.toUpper, itv, lim), { data := s, ts := ts })]
            (sym.toUpper, itv, lim) = (none, [])))
    ∧ ((now - ts ≤ ttl → Features._cache_get ttl now [(fkey, (ts, v))] fkey = some v)
      ∧ (ttl < now - ts → Features._cache_get ttl now [(fkey, (ts, v))] fkey = none))
    ∧ ((now - ts ≤ ttl →
        Prices.get_prices ttl now [((sym.toUpper, itv, lim), { data := s, ts := ts })]
            sym itv lim adapters =
          (Except.ok s, [((sym.toUpper, itv, lim), { data := s, ts := ts })], 0))
      ∧ (ttl < now - ts →
        Prices.get_prices ttl now [((sym.toUpper, itv, lim), { data := s, ts := ts })]
            sym itv lim adapters =
          match Prices.cascade none adapters with
          | (Except.ok d, n) =>
            (Except.ok d, Prices._cache_set now (sym.toUpper, itv, lim) d [], n)
          | (Except.error e, n) => (Except.error e, [], n))) := by
  have hfresh : now - ts ≤ ttl → ¬ (ttl < now - ts) := fun h => not_lt.mpr h
  have hget : now - ts ≤ ttl →
      Prices._cache_get ttl now [((sym.toUpper, itv, lim), { data := s, ts := ts })]
          (sym.toUpper, itv, lim) =
        (some s, [((sym.toUpper, itv, lim), { data := s, ts := ts })]) := by
    intro h
    simp [Prices._cache_get, List.lookup, hfresh h]
  have hstale : ttl < now - ts →
      Prices._cache_get ttl now [((sym.toUpper, itv, lim), { data := s, ts := ts })]
          (sym.toUpper, itv, lim) = (none, []) := by
    intro h
    simp [Prices._cache_get, List.lookup, h, List.eraseP]
  refine ⟨⟨hget, hstale⟩, ⟨?_, ?_⟩, ⟨?_, ?_⟩⟩
  · intro h
    simp [Features._cache_get, List.lookup, h]
  · intro h
    simp [Features._cache_get, List.lookup, not_le.mpr h]
  · intro h
    simp only [Prices.get_prices, hget h]
  · intro h
    simp only [Prices.get_prices, hstale h]

/-- C4 (witness): with TTL 60 and an entry stored at time 0, a read at
time 59 returns the stored series and payload unchanged with no adapter
invoked, and a read at time 61 finds both caches empty and runs the
cascade afresh. -/
theorem claim_C4_witness :
    Prices.get_prices 60 59
        [(("AAPL".toUpper, "1day", 100), { data := sampleSeries, ts := 0 })]
        "AAPL" "1day" 100 [Except.error "boom"] =
      (Except.ok sampleSeries,
        [(("AAPL".toUpper, "1day", 100), { data := sampleSeries, ts := 0 })], 0)
    ∧ Features._cache_get 60 59 [(("AAPL", "1day", 240, 50), ((0 : ℚ), (42 : ℚ)))]
        ("AAPL", "1day", 240, 50) = some 42
    ∧ Features._cache_get 60 61 [(("AAPL", "1day", 240, 50), ((0 : ℚ), (42 : ℚ)))]
        ("AAPL", "1day", 240, 50) = none
    ∧ Prices.get_prices 60 61
        [(("AAPL".toUpper, "1day", 100), { data := sampleSeries, ts := 0 })]
        "AAPL" "1day" 100 [Except.error "boom"] =
      (Except.error (Prices.CascadeError.allProvidersFailed (some "boom")), [], 1) := by
  have h59 : (59 : ℚ) - 0 ≤ 60 := by norm_num
  have h61 : (60 : ℚ) < 61 - 0 := by norm_num
  refine ⟨?_, ?_, ?_, ?_⟩
  · exact (claim_C4 60 0 59 "AAPL" "1day" 100 sampleSeries
      ("AAPL", "1day", 240, 50) 42 [Except.error "boom"]).2.2.1 h59
  · exact (claim_C4 60 0 59 "AAPL" "1day" 100 sampleSeries
      ("AAPL", "1day", 240, 50) 42 [Except.error "boom"]).2.1.1 h59
  · exact (claim_C4 60 0 61 "AAPL" "1day" 100 sampleSeries
      ("AAPL", "1day", 240, 50) 42 [Except.error "boom"]).2.1.2 h61
  · have := (claim_C4 60 0 61 "AAPL" "1day" 100 sampleSeries
      ("AAPL", "1day", 240, 50) 42 [Except.error "boom"]).2.2.2 h61
    simpa [Prices.cascade, Prices.lastRaised] using this

/-- The Wilder update keeps a nonnegative average nonnegative when the
period is at least 1 and the incoming steps are nonnegative. -/
theorem wilderSmooth_nonneg (period : ℕ) (seed : ℚ) (rest : List ℚ)
    (hp : 1 ≤ period) (hs : 0 ≤ seed) (hr : ∀ x ∈ rest, 0 ≤ x) :
    0 ≤ Features.wilderSmooth period seed rest := by
  induction rest generalizing seed with
  | nil => exact hs
  | cons x t ih =>
    have hx : 0 ≤ x := hr x (List.mem_cons_self x t)
    have hper : (1 : ℚ) ≤ (period : ℚ) := by exact_mod_cast hp
    have hseed : 0 ≤ (seed * ((period : ℚ) - 1) + x) / period :=
      div_nonneg (add_nonneg (mul_nonneg hs (by linarith)) hx) (by linarith)
    exact ih _ hseed (fun y hy => hr y (List.mem_cons_of_mem x hy))

/-- The Wilder update of a zero average over zero steps stays zero. -/
theorem wilderSmooth_zero (period : ℕ) (rest : List ℚ)
    (hr : ∀ x ∈ rest, x = 0) :
    Features.wilderSmooth period 0 rest = 0 := by
  induction rest with
  | nil => rfl
  | cons x t ih =>
    have hx : x = 0 := hr x (List.mem_cons_self x t)
    have step : Features.wilderSmooth period 0 (x :: t) =
        Features.wilderSmooth period ((0 * ((period : ℚ) - 1) + x) / period) t := rfl
    rw [step, hx]
    simpa using ih (fun y hy => hr y (List.mem_cons_of_mem x hy))

/-- Every per-step loss is nonnegative. -/
theorem lossesOf_nonneg (values : List ℚ) : ∀ x ∈ Features.lossesOf values, 0 ≤ x := by
  intro x hx
  obtain ⟨p, _, rfl⟩ := List.mem_map.mp hx
  exact le_max_right _ _

/-- Every per-step gain is nonnegative. -/
theorem gainsOf_nonneg (values : List ℚ) : ∀ x ∈ Features.gainsOf values, 0 ≤ x := by
  intro x hx
  obtain ⟨p, _, rfl⟩ := List.mem_map.mp hx
  exact le_max_right _ _

/-- The smoothed average loss is nonnegative for any positive period. -/
theorem rsiAvgLoss_nonneg (values : List ℚ) (period : ℕ) (hp : 1 ≤ period) :
    0 ≤ Features.rsiAvgLoss values period := by
  refine wilderSmooth_nonneg period _ _ hp
    (div_nonneg (List.sum_nonneg ?_) (by positivity)) ?_
  · exact fun x hx => lossesOf_nonneg values x (List.mem_of_mem_take hx)
  · exact fun x hx => lossesOf_nonneg values x (List.mem_of_mem_drop hx)

/-- The smoothed average gain is nonnegative for any positive period. -/
theorem rsiAvgGain_nonneg (values : List ℚ) (period : ℕ) (hp : 1 ≤ period) :
    0 ≤ Features.rsiAvgGain values period := by
  refine wilderSmooth_nonneg period _ _ hp
    (div_nonneg (List.sum_nonneg ?_) (by positivity)) ?_
  · exact fun x hx => gainsOf_nonneg values x (List.mem_of_mem_take hx)
  · exact fun x hx => gainsOf_nonneg values x (List.mem_of_mem_drop hx)

/-- On a strictly increasing series every per-step loss is exactly zero. -/
theorem lossesOf_eq_zero_of_chain (values : List ℚ)
    (h : values.Chain' (· < ·)) : ∀ x ∈ Features.lossesOf values, x = 0 := by
  induction values with
  | nil => intro x hx; simp [Features.lossesOf] at hx
  | cons a t ih =>
    cases t with
    | nil => intro x hx; simp [Features.lossesOf] at hx
    | cons b u =>
      have hab : a < b := (List.chain'_cons.mp h).1
      have htail := (List.chain'_cons.mp h).2
      intro x hx
      have hshape : Features.lossesOf (a :: b :: u) =
          max (a - b) 0 :: Features.lossesOf (b :: u) := rfl
      rw [hshape] at hx
      rcases List.mem_cons.mp hx with hx | hx
      · have : a - b ≤ 0 := by linarith
        rw [hx]
        exact max_eq_right this
      · exact ih htail x hx

/-- On a strictly increasing series the smoothed average loss vanishes. -/
theorem rsiAvgLoss_of_chain (values : List ℚ) (period : ℕ)
    (h : values.Chain' (· < ·)) : Features.rsiAvgLoss values period = 0 := by
  have hz := lossesOf_eq_zero_of_chain values h
  have hseed : ((Features.lossesOf values).take period).sum = 0 :=
    List.sum_eq_zero (fun x hx => hz x (List.mem_of_mem_take hx))
  unfold Features.rsiAvgLoss
  rw [hseed, zero_div]
  exact wilderSmooth_zero period _ (fun x hx => hz x (List.mem_of_mem_drop hx))

/-- C6: the RSI(14) of features.py: `none` when the series has at most 14
points; otherwise Wilder smoothing — seeded averages of the first 14
gains/losses updated by `avg = (avg*13 + new)/14` — reported as 100
exactly when the smoothed average loss is zero and as
`100 - 100/(1 + avg_gain/avg_loss)` otherwise; in particular every
strictly increasing series of at least 15 points yields exactly 100. -/
theorem claim_C6 :
    (∀ values : List ℚ, values.length ≤ 14 → Features._rsi values 14 = none)
    ∧ (∀ values : List ℚ, 14 < values.length →
        Features._rsi values 14 =
          some (if Features.rsiAvgLoss values 14 = 0 then 100
            else 100 - 100 / (1 + Features.rsiAvgGain values 14 / Features.rsiAvgLoss values 14))
        ∧ (Features._rsi values 14 = some 100 ↔ Features.rsiAvgLoss values 14 = 0))
    ∧ (∀ values : List ℚ, values.Chain' (· < ·) → 15 ≤ values.length →
        Features._rsi values 14 = some 100) := by
  refine ⟨?_, ?_, ?_⟩
  · intro v h
    simp [Features._rsi, h]
  · intro v h
    have hn : ¬ (v.length ≤ 14) := not_le.mpr h
    constructor
    · unfold Features._rsi
      rw [if_neg hn]
      split_ifs with hL <;> rfl
    · by_cases hL : Features.rsiAvgLoss v 14 = 0
      · simp [Features._rsi, hn, hL]
      · have hl0 : 0 < Features.rsiAvgLoss v 14 :=
          lt_of_le_of_ne (rsiAvgLoss_nonneg v 14 (by norm_num)) (Ne.symm hL)
        have hg0 : 0 ≤ Features.rsiAvgGain v 14 := rsiAvgGain_nonneg v 14 (by norm_num)
        have hpos : 0 < 100 / (1 + Features.rsiAvgGain v 14 / Features.rsiAvgLoss v 14) := by
          have : 0 < 1 + Features.rsiAvgGain v 14 / Features.rsiAvgLoss v 14 := by
            have := div_nonneg hg0 hl0.le
            linarith
          positivity
        have hrsi : Features._rsi v 14 =
            some (100 - 100 / (1 + Features.rsiAvgGain v 14 / Features.rsiAvgLoss v 14)) := by
          unfold Features._rsi
          rw [if_neg hn, if_neg hL]
        rw [hrsi]
        constructor
        · intro hcontr
          have := Option.some.inj hcontr
          linarith
        · intro h0
          exact absurd h0 hL
  · intro v hc hlen
    have hn : ¬ (v.length ≤ 14) := by omega
    have hL : Features.rsiAvgLoss v 14 = 0 := rsiAvgLoss_of_chain v 14 hc
    simp [Features._rsi, hn, hL]

/-- C6 (witness): the strictly increasing 15-point series 0..14 scores
RSI(14) = 100, and a 1-point series has no RSI. -/
theorem claim_C6_witness :
    Features._rsi [0, 1, 2, 3, 4, 5, 6, 7, 8, 9, 10, 11, 12, 13, 14] 14 = some 100
    ∧ Features._rsi [0] 14 = none :=
  ⟨claim_C6.2.2 [0, 1, 2, 3, 4, 5, 6, 7, 8, 9, 10, 11, 12, 13, 14]
      (by norm_num [List.chain'_cons]) (by decide),
    claim_C6.1 [0] (by decide)⟩

/-- An EMA over at least `n` values exists. -/
theorem ema_eq_some (values : List ℚ) (n : ℕ) (h : n ≤ values.length) :
    ∃ a, Features._ema values n = some a := by
  unfold Features._ema
  rw [if_neg (not_lt.mpr h)]
  exact ⟨_, rfl⟩

/-- An EMA over fewer than `n` values is `none`. -/
theorem ema_eq_none (values : List ℚ) (n : ℕ) (h : values.length < n) :
    Features._ema values n = none := by
  unfold Features._ema
  rw [if_pos h]

/-- A prefix of length `p` of the series contributes an entry to the
running MACD(12, 26) series exactly when it reaches 26 values. -/
theorem emaDiff_isSome (values : List ℚ) (p : ℕ) (hp : p ≤ values.length) :
    (Features.emaDiff values 12 26 p).isSome = decide (26 ≤ p) := by
  have hlen : (values.take p).length = p := by
    rw [List.length_take]
    omega
  by_cases h26 : 26 ≤ p
  · obtain ⟨a, ha⟩ := ema_eq_some (values.take p) 12 (by omega)
    obtain ⟨b, hb⟩ := ema_eq_some (values.take p) 26 (by omega)
    simp [Features.emaDiff, ha, hb, h26]
  · have hb : Features._ema (values.take p) 26 = none := ema_eq_none _ _ (by omega)
    cases ha : Features._ema (values.take p) 12 <;>
      simp [Features.emaDiff, ha, hb, h26]

/-- The length of a `filterMap` counts the inputs mapped to a value. -/
theorem length_filterMap_eq_countP {α β : Type} (f : α → Option β) (l : List α) :
    (l.filterMap f).length = l.countP (fun a => (f a).isSome) := by
  induction l with
  | nil => rfl
  | cons x t ih =>
    cases h : f x <;> simp [List.filterMap_cons, h, List.countP_cons, ih]

/-- Among `0, ..., L-1` exactly `L - k` numbers are at least `k`. -/
theorem countP_range_ge (L k : ℕ) :
    (List.range L).countP (fun i => decide (k ≤ i)) = L - k := by
  induction L with
  | zero => simp
  | succ n ih =>
    rw [List.range_succ, List.countP_append, ih]
    by_cases h : k ≤ n <;> simp [List.countP_cons, h] <;> omega

/-- The running MACD(12, 26) series has exactly `length - 25` entries
(truncated subtraction). -/
theorem macdPrefixSeries_length (values : List ℚ) :
    (Features.macdPrefixSeries values 12 26).length = values.length - 25 := by
  unfold Features.macdPrefixSeries
  rw [length_filterMap_eq_countP]
  have hcong : ∀ i ∈ List.range values.length,
      ((Features.emaDiff values 12 26 (i + 1)).isSome) = decide (25 ≤ i) := by
    intro i hi
    have hi2 : i < values.length := List.mem_range.mp hi
    rw [emaDiff_isSome values (i + 1) (by omega)]
    exact decide_eq_decide.mpr (by omega)
  rw [List.countP_congr (fun i hi => by rw [hcong i hi]), countP_range_ge]

/-- The two reachable shapes of `_macd(values, 12, 26, 9)`: everything
`none` below 35 values, and all three components present from 35 values
on — the signal line cannot be missing while macd is present, because the
running MACD series then has at least 10 ≥ 9 entries. -/
theorem macd_cases (values : List ℚ) :
    (values.length < 35 → Features._macd values 12 26 9 = (none, none, none))
    ∧ (35 ≤ values.length →
        ∃ m s, Features._macd values 12 26 9 = (some m, some s, some (m - s))) := by
  constructor
  · intro h
    unfold Features._macd
    rw [if_pos (by omega)]
  · intro h
    obtain ⟨ef, hef⟩ := ema_eq_some values 12 (by omega)
    obtain ⟨es, hes⟩ := ema_eq_some values 26 (by omega)
    have hms : (Features.macdPrefixSeries values 12 26).length = values.length - 25 :=
      macdPrefixSeries_length values
    obtain ⟨s, hs⟩ := ema_eq_some (Features.macdPrefixSeries values 12 26) 9 (by omega)
    refine ⟨ef - es, s, ?_⟩
    unfold Features._macd
    rw [if_neg (by omega)]
    simp only [hef, hes]
    rw [if_neg (by omega)]
    simp only [hs]

/-- C7 (counterexample): no closing-price series makes MACD(12, 26, 9)
return a non-null macd with a null signal line and null histogram: the
guard `len < slow + signal` makes the short-signal-history fallback
branches of `_macd` unreachable. -/
theorem claim_C7_counterexample :
    ¬ ∃ values : List ℚ,
        (Features._macd values 12 26 9).1 ≠ none
        ∧ (Features._macd values 12 26 9).2.1 = none
        ∧ (Features._macd values 12 26 9).2.2 = none := by
  rintro ⟨v, h1, h2, h3⟩
  by_cases hl : v.length < 35
  · exact h1 (by rw [(macd_cases v).1 hl])
  · obtain ⟨m, s, hms⟩ := (macd_cases v).2 (by omega)
    rw [hms] at h2
    exact Option.some_ne_none s h2

/-- C7 (amended): MACD(12, 26, 9) is all-or-nothing: with fewer than 35
values all three components are null; with at least 35 values macd, the
signal line, and the histogram (their difference) are all non-null. -/
theorem claim_C7 (values : List ℚ) :
    (values.length < 35 → Features._macd values 12 26 9 = (none, none, none))
    ∧ (35 ≤ values.length →
        ∃ m s, Features._macd values 12 26 9 = (some m, some s, some (m - s))) :=
  macd_cases values

/-- C7 (witness): a 1-point series yields all-null MACD; a 35-point
series yields all three components. -/
theorem claim_C7_witness :
    Features._macd [0] 12 26 9 = (none, none, none)
    ∧ ∃ m s, Features._macd (List.replicate 35 (0 : ℚ)) 12 26 9 =
        (some m, some s, some (m - s)) :=
  ⟨(claim_C7 [0]).1 (by decide), (claim_C7 (List.replicate 35 0)).2 (by simp)⟩

/-- C8 (counterexample): the constant 20-point series has its last value
equal to its 20-point SMA, yet Bollinger %B is `null`, not 0.5: the
standard deviation is zero, the bands coincide, and the code guards
`upper != lower`. -/
theorem claim_C8_counterexample :
    Features._sma (List.replicate 20 (10 : ℚ)) 20 = some 10
    ∧ (List.replicate 20 (10 : ℚ)).getLast?.getD 0 = 10
    ∧ Features.bollingerPercentB (List.replicate 20 (10 : ℚ)) = none := by
  have hsma : Features._sma (List.replicate 20 (10 : ℚ)) 20 = some 10 := by
    norm_num [Features._sma, List.sum_replicate]
  have hvar : Features.squaredDeviationMean (List.replicate 20 (10 : ℚ)) 20 10 = 0 := by
    norm_num [Features.squaredDeviationMean, List.map_replicate, List.sum_replicate]
  have hsd : Features._stddev (List.replicate 20 (10 : ℚ)) 20 = some 0 := by
    unfold Features._stddev
    rw [if_neg (by norm_num)]
    simp only [hsma, hvar]
    rw [Rat.cast_zero, Real.sqrt_zero]
  refine ⟨hsma, by simp, ?_⟩
  unfold Features.bollingerPercentB
  simp only [hsma, hsd]
  norm_num

/-- C8 (amended): for a closing-price series of at least 20 points whose
last value equals its 20-point SMA and whose 20-point standard deviation
is non-zero (the bands differ), Bollinger %B(20, 2) is exactly 0.5. -/
theorem claim_C8 (closes : List ℚ) (m : ℚ) (sd : ℝ)
    (_hlen : 20 ≤ closes.length)
    (hm : Features._sma closes 20 = some m)
    (hsd : Features._stddev closes 20 = some sd)
    (hsd0 : sd ≠ 0)
    (hlast : closes.getLast?.getD 0 = m) :
    Features.bollingerPercentB closes = some (1 / 2) := by
  unfold Features.bollingerPercentB
  simp only [hm, hsd, hlast]
  have hne : (m : ℝ) + 2 * sd ≠ (m : ℝ) - 2 * sd := by
    intro hEq
    apply hsd0
    linarith
  rw [if_neg hne]
  congr 1
  have hnum : ((m : ℚ) : ℝ) - ((m : ℝ) - 2 * sd) = 2 * sd := by ring
  have hden : ((m : ℝ) + 2 * sd) - ((m : ℝ) - 2 * sd) = 4 * sd := by ring
  rw [hnum, hden]
  rw [div_eq_iff (by intro h4; apply hsd0; linarith)]
  ring

/-- C8 (witness): on the sample series the bands are 10 ± 2 and %B is
exactly 0.5. -/
theorem claim_C8_witness :
    Features.bollingerPercentB bollingerSample = some (1 / 2) := by
  have hm : Features._sma bollingerSample 20 = some 10 := by
    norm_num [Features._sma, bollingerSample]
  have hvar : Features.squaredDeviationMean bollingerSample 20 10 = 1 := by
    norm_num [Features.squaredDeviationMean, bollingerSample]
  have hsd : Features._stddev bollingerSample 20 = some 1 := by
    unfold Features._stddev
    rw [if_neg (by norm_num [bollingerSample])]
    simp only [hm, hvar]
    rw [Rat.cast_one, Real.sqrt_one]
  exact claim_C8 bollingerSample 10 1 (by norm_num [bollingerSample]) hm hsd
    one_ne_zero (by simp [bollingerSample])

/-- Selecting from a value list the positions whose enumerated timestamp
passes the filter yields, when the two lists run in parallel, exactly the
values paired with passing timestamps.  `pre` is the already-consumed
prefix of the value list; the enumeration starts at its length. -/
theorem enumFrom_select (p : ℚ → Bool) (ts : List ℚ) :
    ∀ (ss pre : List ℚ), ts.length = ss.length →
      ((((List.enumFrom pre.length ts).filter (fun q => p q.2)).map (fun q => q.1)).map
          (fun i => (pre ++ ss).getD i 0)) =
        ((ts.zip ss).filter (fun q => p q.1)).map (fun q => q.2) := by
  induction ts with
  | nil =>
    intro ss pre h
    simp [List.enumFrom]
  | cons t ts ih =>
    intro ss pre h
    cases ss with
    | nil => simp at h
    | cons s ss =>
      have hlen : ts.length = ss.length := by simpa using h
      have hgetD : (pre ++ s :: ss).getD pre.length 0 = s := by
        rw [List.getD_append_right pre (s :: ss) 0 pre.length (le_refl pre.length)]
        simp
      have htail := ih ss (pre ++ [s]) hlen
      rw [List.length_append, List.length_singleton, List.append_assoc] at htail
      simp only [List.singleton_append] at htail
      simp only [List.enumFrom, List.filter_cons, List.zip_cons_cons]
      by_cases hp : p t
      · simp only [hp, if_pos, List.map_cons, hgetD]
        rw [htail]
      · simp only [hp, Bool.false_eq_true, if_neg, not_false_iff]
        rw [htail]

/-- Filtering an enumeration on the entries does not depend on the start
index: the number of survivors equals that of the plain filter. -/
theorem enumFrom_filter_length (p : ℚ → Bool) (ts : List ℚ) :
    ∀ k : ℕ, ((List.enumFrom k ts).filter (fun q => p q.2)).length =
      (ts.filter p).length := by
  induction ts with
  | nil => intro k; rfl
  | cons t ts ih =>
    intro k
    simp only [List.enumFrom, List.filter_cons]
    by_cases hp : p t <;> simp [hp, ih]

/-- Every index produced by an enumeration starting at `k` is below
`k` plus the list length. -/
theorem fst_lt_of_mem_enumFrom (l : List ℚ) :
    ∀ (k : ℕ) (q : ℕ × ℚ), q ∈ List.enumFrom k l → q.1 < k + l.length := by
  induction l with
  | nil => intro k q hq; simp [List.enumFrom] at hq
  | cons x t ih =>
    intro k q hq
    simp only [List.enumFrom, List.mem_cons] at hq
    rcases hq with rfl | hq
    · simp
    · have := ih (k + 1) q hq
      simp only [List.length_cons]
      omega

/-- When every item carries a numeric score, the filtered score list is
just the scores read off in order. -/
theorem filterMap_score_eq_map (items : List Features.NewsItem)
    (h : ∀ n ∈ items, (n.score).isSome = true) :
    items.filterMap (fun n => n.score) = items.map (fun n => n.score.getD 0) := by
  induction items with
  | nil => rfl
  | cons x t ih =>
    cases hx : x.score with
    | none =>
      have := h x (List.mem_cons_self x t)
      rw [hx] at this
      simp at this
    | some v =>
      have ht : ∀ n ∈ t, (n.score).isSome = true :=
        fun n hn => h n (List.mem_cons_of_mem x hn)
      simp [List.filterMap_cons, hx, ih ht]

/-- C9: for every list of news items each carrying a numeric sentiment
score (the NewsItem shape of the data model), and every reference time
and window, the news aggregate of `get_features` equals the mean of the
sentiment scores of exactly the items published at or after `now - w`
together with their count — and when no item qualifies the mean is `null`
while the count is 0. -/
theorem claim_C9 (items : List Features.NewsItem) (now w : ℚ)
    (h : ∀ n ∈ items, (n.score).isSome = true) :
    Features.newsWindowAggregate items now w =
      Except.ok (Features.specNewsWindow items now w) := by
  have hscores := filterMap_score_eq_map items h
  have hsl : (items.map (fun n => n.score.getD 0)).length = items.length :=
    List.length_map _ _
  have htl : (items.map (fun n => n.published_at.getD 0)).length = items.length :=
    List.length_map _ _
  have hsel := enumFrom_select (fun x => decide (now - w ≤ x))
    (items.map (fun n => n.published_at.getD 0))
    (items.map (fun n => n.score.getD 0)) [] (by rw [htl, hsl])
  simp only [List.length_nil, List.nil_append] at hsel
  have hcnt := enumFrom_filter_length (fun x => decide (now - w ≤ x))
    (items.map (fun n => n.published_at.getD 0)) 0
  have hzip : ((items.map (fun n => n.published_at.getD 0)).zip
      (items.map (fun n => n.score.getD 0))) =
      items.map (fun n => (n.published_at.getD 0, n.score.getD 0)) :=
    List.zip_map' _ _ _
  rw [hzip, List.filter_map] at hsel
  simp only [List.map_map, Function.comp_def] at hsel
  have hqcnt : ((items.map (fun n => n.published_at.getD 0)).filter
      (fun x => decide (now - w ≤ x))).length =
      (items.filter (fun n => decide (now - w ≤ n.published_at.getD 0))).length := by
    rw [List.filter_map, List.length_map]
    simp only [Function.comp_def]
  have hbound : ∀ i ∈ (((List.enumFrom 0
        (items.map (fun n => n.published_at.getD 0))).filter
          (fun q => decide (now - w ≤ q.2))).map (fun q => q.1)),
      i < items.length := by
    intro i hi
    obtain ⟨q, hqmem, rfl⟩ := List.mem_map.mp hi
    have hq2 := List.mem_of_mem_filter hqmem
    have := fst_lt_of_mem_enumFrom _ 0 q hq2
    simpa [htl] using this
  have hQ := filterMap_score_eq_map
    (items.filter (fun n => decide (now - w ≤ n.published_at.getD 0)))
    (fun n hn => h n (List.mem_of_mem_filter hn))
  unfold Features.newsWindowAggregate Features.specNewsWindow
  simp only [hscores, List.enum, List.map_map, Function.comp_def, List.length_map]
  by_cases hq : (List.filter (fun n => decide (now - w ≤ n.published_at.getD 0))
      items).length = 0
  · have hidxlen : (List.map (fun p => p.1)
        (List.filter (fun p => decide (now - w ≤ p.2))
          (List.enumFrom 0 (List.map (fun n => n.published_at.getD 0) items)))).length
        = 0 := by
      rw [List.length_map, hcnt, hqcnt, hq]
    have hemp := List.isEmpty_iff_length_eq_zero.mpr hidxlen
    rw [if_pos hemp]
    have hQnil : List.filter (fun n => decide (now - w ≤ n.published_at.getD 0)) items = [] :=
      List.length_eq_zero.mp hq
    rw [hQnil]
    simp [Features.meanOf]
  · have hcond1 : ¬ ((List.map (fun p => p.1)
        (List.filter (fun p => decide (now - w ≤ p.2))
          (List.enumFrom 0 (List.map (fun n => n.published_at.getD 0) items)))).isEmpty
        = true) := by
      intro hb
      apply hq
      have hz := List.isEmpty_iff_length_eq_zero.mp hb
      rw [List.length_map, hcnt, hqcnt] at hz
      exact hz
    rw [if_neg hcond1]
    have hall : ((List.map (fun p => p.1)
        (List.filter (fun p => decide (now - w ≤ p.2))
          (List.enumFrom 0 (List.map (fun n => n.published_at.getD 0) items)))).all
        (fun i => decide (i < items.length))) = true := by
      rw [List.all_eq_true]
      intro i hi
      exact decide_eq_true (hbound i hi)
    rw [if_pos hall, hsel, hQ, hcnt, hqcnt]

/-- C9 (witness): on the three-item sample with `now = 1000` and a 500
second window the code aggregate coincides with the specified mean/count
over the qualifying items (here all three). -/
theorem claim_C9_witness :
    Features.newsWindowAggregate newsSample 1000 500 =
      Except.ok (Features.specNewsWindow newsSample 1000 500) :=
  claim_C9 newsSample 1000 500 (by decide)

end StockDashboard
